import Mathlib

set_option maxRecDepth 8192

/-!
Verification of `src/darkgate/extractor.py` (DarkGate configuration
extractor).  Bytes and Python strings are both modelled as `List Nat`
(byte values, respectively Unicode code points); Python exceptions are
modelled by an explicit error type, and every fallible Python function
becomes an `Except`- or `Option`-valued Lean function.
-/

/-- Python exceptions that the extractor can raise or catch.
`binasciiError` stands for `binascii.Error` (a `ValueError` subclass)
raised by `base64.b64decode`; the `valueError` variants keep the distinct
messages of the source apart. -/
inductive PyExc where
  | indexError
  | unicodeDecodeError
  | binasciiError
  | valueErrorB64DecodeError
  | valueErrorB64InvalidChar (c : Nat)
  | valueErrorRemoveMissing
deriving DecidableEq

/-- Code points of a Lean string literal, used to write Python `str` /
`bytes` literals as `List Nat`. -/
def strBytes (s : String) : List Nat :=
  s.toList.map Char.toNat

/-- Predicate `leadsWith needle hay` holds when `needle` is an initial segment of
`hay`; models an anchored `re.match` on a literal pattern. -/
def leadsWith : List Nat → List Nat → Bool
  | [], _ => true
  | _ :: _, [] => false
  | a :: as, b :: bs => a == b && leadsWith as bs

/-- First index at which `needle` occurs inside `hay`
(Python `bytes.find` / the successful case of `bytes.index`). -/
def subIndex? (needle : List Nat) : List Nat → Option Nat
  | [] => if needle = [] then some 0 else none
  | b :: bs =>
    if leadsWith needle (b :: bs) then some 0
    else (subIndex? needle bs).map (· + 1)

/-- Python `needle in hay` substring test. -/
def containsSub (needle hay : List Nat) : Bool :=
  (subIndex? needle hay).isSome

/-- Python `content.split(sep)` for a one-byte separator: keeps empty
parts, and splitting the empty sequence yields one empty part. -/
def pySplitL (sep : Nat) : List Nat → List (List Nat)
  | [] => [[]]
  | c :: rest =>
    let r := pySplitL sep rest
    if c = sep then [] :: r
    else
      match r with
      | h :: t => (c :: h) :: t
      | [] => [[c]]

/-- Drop the longest suffix whose elements satisfy `p`. -/
def dropEndWhile (p : Nat → Bool) (l : List Nat) : List Nat :=
  (l.reverse.dropWhile p).reverse

/-- Python `s.strip("\0")`: remove leading and trailing NUL characters. -/
def pyStripNul (l : List Nat) : List Nat :=
  dropEndWhile (· == 0) (l.dropWhile (· == 0))

/-- ASCII characters for which Python `str.isspace()` is true. -/
def isPyWs (c : Nat) : Bool :=
  c == 32 || (9 ≤ c && c ≤ 13) || (28 ≤ c && c ≤ 31)

/-- Python `s.strip()`: remove leading and trailing whitespace. -/
def pyStripWs (l : List Nat) : List Nat :=
  dropEndWhile isPyWs (l.dropWhile isPyWs)

/-- The trimming applied in `get_config`: `string.strip("\0").strip()`. -/
def pyStrip (l : List Nat) : List Nat :=
  pyStripWs (pyStripNul l)

/-- Python `list.remove("")` on a list of strings: delete the first
element equal to the empty string, or `none` when no element is empty
(Python raises `ValueError` in that case). -/
def pyRemoveEmpty : List (List Nat) → Option (List (List Nat))
  | [] => none
  | x :: xs =>
    if x = [] then some xs
    else (pyRemoveEmpty xs).map (x :: ·)

/-- Python `l[i]` with `IndexError` on out-of-range access. -/
def pyIndex (l : List (List Nat)) (i : Nat) : Except PyExc (List Nat) :=
  if h : i < l.length then .ok (l.get ⟨i, h⟩) else .error .indexError

/-- UTF-8 continuation byte test. -/
def utf8Cont (b : Nat) : Bool :=
  128 ≤ b && b ≤ 191

/-- Strict UTF-8 decoding with a structural fuel bound (the fuel is the
remaining input length at entry, and every step consumes at least one
byte, so the out-of-fuel branch is never reached from `utf8Decode`). -/
def utf8DecodeF : Nat → List Nat → Option (List Nat)
  | _, [] => some []
  | 0, _ :: _ => none
  | fuel + 1, b :: rest =>
    if b < 128 then (utf8DecodeF fuel rest).map (fun cs => b :: cs)
    else if b < 194 then none
    else if b ≤ 223 then
      match rest with
      | b2 :: rest2 =>
        if utf8Cont b2 then
          (utf8DecodeF fuel rest2).map (fun cs => ((b - 192) * 64 + (b2 - 128)) :: cs)
        else none
      | [] => none
    else if b ≤ 239 then
      match rest with
      | b2 :: b3 :: rest3 =>
        if (if b = 224 then 160 ≤ b2 && b2 ≤ 191
            else if b = 237 then 128 ≤ b2 && b2 ≤ 159
            else utf8Cont b2) && utf8Cont b3 then
          (utf8DecodeF fuel rest3).map
            (fun cs => ((b - 224) * 4096 + (b2 - 128) * 64 + (b3 - 128)) :: cs)
        else none
      | _ => none
    else if b ≤ 244 then
      match rest with
      | b2 :: b3 :: b4 :: rest4 =>
        if (if b = 240 then 144 ≤ b2 && b2 ≤ 191
            else if b = 244 then 128 ≤ b2 && b2 ≤ 143
            else utf8Cont b2) && utf8Cont b3 && utf8Cont b4 then
          (utf8DecodeF fuel rest4).map
            (fun cs =>
              ((b - 240) * 262144 + (b2 - 128) * 4096 + (b3 - 128) * 64 + (b4 - 128)) :: cs)
        else none
      | _ => none
    else none

/-- Strict UTF-8 decoding of a byte sequence to code points, exactly as
Python `bytes.decode()`: rejects stray continuation bytes, overlong
encodings, surrogates and code points above U+10FFFF.  Returns `none`
where Python raises `UnicodeDecodeError`. -/
def utf8Decode (l : List Nat) : Option (List Nat) :=
  utf8DecodeF l.length l

/-- Python `~k & 255` on a nonnegative `k`: two's-complement bitwise
complement reduced modulo 256. -/
def pyNotMask255 (k : Nat) : Nat :=
  ((-(k : Int) - 1) % 256).toNat

/-- Values appearing in the extracted configuration dictionary. -/
inductive PyVal where
  | pyBool (b : Bool)
  | pyInt (n : Nat)
  | pyStr (s : List Nat)
  | pyStrList (l : List (List Nat))
deriving DecidableEq

/-- A Python dict as an insertion-ordered association list. -/
abbrev PyDict := List (List Nat × PyVal)

/-- Python `d[k] = v`: overwrite in place when the key exists, else
append at the end (insertion order is preserved as in CPython). -/
def dictSet (m : PyDict) (k : List Nat) (v : PyVal) : PyDict :=
  if m.any (fun p => p.1 = k) then
    m.map (fun p => if p.1 = k then (k, v) else p)
  else m ++ [(k, v)]

/-- The 15-byte DOS/PE header signature `PE_START_BYTES`
(`4D5A50000200000004000F00FFFF00`). -/
def PE_START_BYTES : List Nat :=
  [0x4D, 0x5A, 0x50, 0x00, 0x02, 0x00, 0x00, 0x00, 0x04, 0x00, 0x0F, 0x00, 0xFF, 0xFF, 0x00]

/-- The sorted comparison string from `get_alphabet_candidates`:
`"+0123456789=ABCDEFGHIJKLMNOPQRSTUVWXYZabcdefghijklmnopqrstuvwxyz"`.
Note that it contains `=` (61) and does not contain `/` (47). -/
def sortedClassTarget : List Nat :=
  strBytes "+0123456789=ABCDEFGHIJKLMNOPQRSTUVWXYZabcdefghijklmnopqrstuvwxyz"

/-- The standard base64 alphabet `A-Z a-z 0-9 + /` in its usual order. -/
def stdB64Alphabet : List Nat :=
  List.range' 65 26 ++ List.range' 97 26 ++ List.range' 48 10 ++ [43, 47]

/-- Python `bytes.find` on the encode table: index of the first
occurrence of `c`, or `-1` when absent. -/
def bytesFind : List Nat → Nat → Int
  | [], _ => -1
  | t :: ts, c =>
    if t = c then 0
    else
      let r := bytesFind ts c
      if r < 0 then -1 else r + 1

/-- One iteration of the accumulation loop in `base64_decode_block`
(`n <<= 6; if i < len(block): b = table.find(block[i]); ...; n |= b`). -/
def b64AccStep (block table : List Nat) (n i : Nat) : Except PyExc Nat :=
  let n2 := n <<< 6
  if h : i < block.length then
    let b := bytesFind table (block.get ⟨i, h⟩)
    if b < 0 then .error (.valueErrorB64InvalidChar (block.get ⟨i, h⟩))
    else .ok (n2 ||| b.toNat)
  else .ok n2

/-- Function `base64_decode_block` from the source: reject blocks shorter than 2
symbols, accumulate four 6-bit values (missing positions contribute only
the shift), emit the high two bytes, and the third byte only for blocks
of length at least 4. -/
def base64_decode_block (block table : List Nat) : Except PyExc (List Nat) :=
  if block.length < 2 then .error .valueErrorB64DecodeError
  else
    match b64AccStep block table 0 0 with
    | .error e => .error e
    | .ok n1 =>
      match b64AccStep block table n1 1 with
      | .error e => .error e
      | .ok n2 =>
        match b64AccStep block table n2 2 with
        | .error e => .error e
        | .ok n3 =>
          match b64AccStep block table n3 3 with
          | .error e => .error e
          | .ok n =>
            let dec := [(n >>> 16) &&& 255, (n >>> 8) &&& 255]
            .ok (if 4 ≤ block.length then dec ++ [n &&& 255] else dec)

/-- Function `base64_decode` from the source: decode the data in windows of four
symbols, concatenating the block outputs (a trailing window of one to
three symbols is the last block). -/
def base64_decode : List Nat → List Nat → Except PyExc (List Nat)
  | [], _ => .ok []
  | a :: b :: c :: d :: rest, table =>
    match base64_decode_block [a, b, c, d] table with
    | .error e => .error e
    | .ok dec =>
      match base64_decode rest table with
      | .error e => .error e
      | .ok out => .ok (dec ++ out)
  | data, table =>
    match base64_decode_block data table with
    | .error e => .error e
    | .ok dec => .ok dec

/-- Membership in the character class `[A-Za-z0-9+/=]` of the two
alphabet/string regular expressions. -/
def isB64Class (b : Nat) : Bool :=
  (65 ≤ b && b ≤ 90) || (97 ≤ b && b ≤ 122) || (48 ≤ b && b ≤ 57) ||
    b == 43 || b == 47 || b == 61

/-- The scan of `re.findall(rb"[A-Za-z0-9+/=]{64}", content)` with a
structural fuel bound: at each position match exactly 64 class bytes if
possible, continuing after a match, else advance one byte. -/
def findAll64F : Nat → List Nat → List (List Nat)
  | _, [] => []
  | 0, _ :: _ => []
  | fuel + 1, b :: rest =>
    if 64 ≤ (b :: rest).length ∧ ((b :: rest).take 64).all isB64Class then
      (b :: rest).take 64 :: findAll64F fuel ((b :: rest).drop 64)
    else findAll64F fuel rest

/-- Python `re.findall(rb"[A-Za-z0-9+/=]{64}", content)`. -/
def findAll64 (l : List Nat) : List (List Nat) :=
  findAll64F l.length l

/-- The scan of `re.findall(rb"[A-Za-z0-9+/=]{5,}", content)` with a
structural fuel bound: maximal runs of class bytes of length at least 5,
in order of occurrence. -/
def findAllRuns5F : Nat → List Nat → List (List Nat)
  | _, [] => []
  | 0, _ :: _ => []
  | fuel + 1, b :: rest =>
    if isB64Class b then
      let run := (b :: rest).takeWhile isB64Class
      let rest2 := (b :: rest).dropWhile isB64Class
      (if 5 ≤ run.length then [run] else []) ++ findAllRuns5F fuel rest2
    else findAllRuns5F fuel rest

/-- Python `re.findall(rb"[A-Za-z0-9+/=]{5,}", content)`. -/
def findAllRuns5 (l : List Nat) : List (List Nat) :=
  findAllRuns5F l.length l

/-- Insertion into a sorted list of byte values. -/
def insertSorted (x : Nat) : List Nat → List Nat
  | [] => [x]
  | y :: ys => if x ≤ y then x :: y :: ys else y :: insertSorted x ys

/-- Python `"".join(sorted(s))`: the bytes of `s` in ascending order. -/
def pySorted (l : List Nat) : List Nat :=
  l.foldr insertSorted []

/-- Function `get_alphabet_candidates` from the source: keep each 64-byte class
run whose sorted characters equal the fixed comparison string. -/
def get_alphabet_candidates (content : List Nat) : List (List Nat) :=
  (findAll64 content).filter (fun c => pySorted c = sortedClassTarget)

/-- Length of `decoded.encode("ascii", "ignore")`: the number of code
points below 128. -/
def asciiIgnoreLen (cps : List Nat) : Nat :=
  (cps.filter (fun c => c < 128)).length

/-- One decode attempt of `decode_strings`: custom-base64 decode,
UTF-8 decode, and the all-ASCII filter; exceptions and filtered decodes
both yield `none`. -/
def tryDecodeOne (s alphabet : List Nat) : Option (List Nat) :=
  match base64_decode s alphabet with
  | .error _ => none
  | .ok bytes =>
    match utf8Decode bytes with
    | none => none
    | some cps => if cps.length = asciiIgnoreLen cps then some cps else none

/-- Function `decode_strings` from the source: try every string candidate against
every alphabet candidate, keeping each successful all-ASCII decode. -/
def decode_strings (content : List Nat) (alphabets : List (List Nat)) : List (List Nat) :=
  (findAllRuns5 content).flatMap (fun s => alphabets.filterMap (fun a => tryDecodeOne s a))

/-- Function `perform_string_extraction` from the source: `None` when no alphabet
candidate is found, else the decoded strings. -/
def perform_string_extraction (content : List Nat) : Option (List (List Nat)) :=
  let candidates := get_alphabet_candidates content
  if candidates ≠ [] then some (decode_strings content candidates) else none

/-- ASCII decimal digit test (`\d` over the extractor's ASCII strings). -/
def isDigitB (c : Nat) : Bool :=
  48 ≤ c && c ≤ 57

/-- ASCII word-character test (`\w` over the extractor's ASCII strings). -/
def isWordB (c : Nat) : Bool :=
  isDigitB c || (65 ≤ c && c ≤ 90) || (97 ≤ c && c ≤ 122) || c == 95

/-- Value of a decimal digit string, as Python `int`. -/
def digitsToNat (l : List Nat) : Nat :=
  l.foldl (fun a c => a * 10 + (c - 48)) 0

/-- Function `parse_config_value` from the source: `"No"`, `"Yes"`, an all-digit
string (`str.isnumeric`), or anything else kept as a string. -/
def parse_config_value (v : List Nat) : PyVal :=
  if v = strBytes "No" then .pyBool false
  else if v = strBytes "Yes" then .pyBool true
  else if v ≠ [] ∧ v.all isDigitB then .pyInt (digitsToNat v)
  else .pyStr v

/-- The `config_flag_mapping` table from `get_config`. -/
def config_flag_mapping : List (List Nat × List Nat) :=
  [ (strBytes "0", strBytes "c2_port"),
    (strBytes "1", strBytes "startup_persistence"),
    (strBytes "2", strBytes "rootkit"),
    (strBytes "3", strBytes "anti_vm"),
    (strBytes "4", strBytes "min_disk"),
    (strBytes "5", strBytes "check_disk"),
    (strBytes "6", strBytes "anti_analysis"),
    (strBytes "7", strBytes "min_ram"),
    (strBytes "8", strBytes "check_ram"),
    (strBytes "9", strBytes "check_xeon"),
    (strBytes "10", strBytes "internal_mutex"),
    (strBytes "11", strBytes "crypter_rawstub"),
    (strBytes "12", strBytes "crypter_dll"),
    (strBytes "13", strBytes "crypter_au3"),
    (strBytes "15", strBytes "crypto_key"),
    (strBytes "16", strBytes "c2_ping_interval"),
    (strBytes "17", strBytes "anti_debug") ]

/-- Lookup of a token key in `config_flag_mapping`. -/
def lookupFlag (k : List Nat) : Option (List Nat) :=
  (config_flag_mapping.find? (fun p => p.1 == k)).map (fun p => p.2)

/-- The field name assigned by `get_config` to a token key: the mapped
name when the key is in the table, else `flag_<key>`. -/
def flagFieldName (k : List Nat) : List Nat :=
  match lookupFlag k with
  | some name => name
  | none => strBytes "flag_" ++ k

/-- Python `re.findall(r"(\d+)=(\w+)", s)`: left-to-right non-overlapping
matches of a maximal digit run, a literal `=`, and a maximal nonempty
word run; scanning resumes after each match, or one character after a
failed attempt. -/
def findTokensF : Nat → List Nat → List (List Nat × List Nat)
  | _, [] => []
  | 0, _ :: _ => []
  | fuel + 1, c :: rest =>
    if isDigitB c then
      match (c :: rest).dropWhile isDigitB with
      | 61 :: rest2 =>
        let digits := (c :: rest).takeWhile isDigitB
        let word := rest2.takeWhile isWordB
        if word ≠ [] then (digits, word) :: findTokensF fuel (rest2.dropWhile isWordB)
        else findTokensF fuel rest
      | _ => findTokensF fuel rest
    else findTokensF fuel rest

/-- Python `re.findall(r"(\d+)=(\w+)", s)` over the extractor strings. -/
def findTokens (l : List Nat) : List (List Nat × List Nat) :=
  findTokensF l.length l

/-- Processing of one decoded string inside the loop of `get_config`:
the flag-token branch, the C2-list branch, or no change. -/
def get_config_step (result : PyDict) (s : List Nat) : Except PyExc PyDict :=
  if containsSub (strBytes "1=Yes") s || containsSub (strBytes "1=No") s then
    .ok ((findTokens s).foldl
      (fun r t => dictSet r (flagFieldName t.1) (parse_config_value t.2)) result)
  else if leadsWith (strBytes "http://") s || leadsWith (strBytes "https://") s then
    let sp := pySplitL 124 (pyStrip s)
    if 1 < sp.length then
      match pyRemoveEmpty sp with
      | some sp2 => .ok (dictSet result (strBytes "c2_servers") (.pyStrList sp2))
      | none => .error .valueErrorRemoveMissing
    else .ok result
  else .ok result

/-- The fold of `get_config` over the string list, threading the result
dict and propagating an uncaught exception. -/
def getConfigFrom (result : PyDict) : List (List Nat) → Except PyExc PyDict
  | [] => .ok result
  | s :: rest =>
    match get_config_step result s with
    | .ok r2 => getConfigFrom r2 rest
    | .error e => .error e

/-- Function `get_config` from the source. -/
def get_config (strings : List (List Nat)) : Except PyExc PyDict :=
  getConfigFrom [] strings

/-- Index of a byte in the standard base64 alphabet, `none` for
non-alphabet bytes (the padding byte `=` is handled by the caller). -/
def stdB64Index (c : Nat) : Option Nat :=
  if 65 ≤ c ∧ c ≤ 90 then some (c - 65)
  else if 97 ≤ c ∧ c ≤ 122 then some (c - 97 + 26)
  else if 48 ≤ c ∧ c ≤ 57 then some (c - 48 + 52)
  else if c = 43 then some 62
  else if c = 47 then some 63
  else none

/-- The state machine of CPython `binascii.a2b_base64` in non-strict
mode (the engine of `base64.b64decode`): invalid characters are skipped,
`=` terminates a quad once enough characters and pads have been seen,
and a leftover incomplete quad at the end raises `binascii.Error`. -/
def a2bGo : List Nat → Nat → Nat → Nat → List Nat → Except PyExc (List Nat)
  | [], quadPos, _, _, acc =>
    if quadPos = 0 then .ok acc.reverse else .error .binasciiError
  | c :: rest, quadPos, leftchar, pads, acc =>
    if c = 61 then
      if 2 ≤ quadPos then
        if 4 ≤ quadPos + (pads + 1) then .ok acc.reverse
        else a2bGo rest quadPos leftchar (pads + 1) acc
      else a2bGo rest quadPos leftchar pads acc
    else
      match stdB64Index c with
      | none => a2bGo rest quadPos leftchar pads acc
      | some v =>
        match quadPos with
        | 0 => a2bGo rest 1 v 0 acc
        | 1 => a2bGo rest 2 (v &&& 15) 0 (((leftchar <<< 2) ||| (v >>> 4)) :: acc)
        | 2 => a2bGo rest 3 (v &&& 3) 0 (((leftchar <<< 4) ||| (v >>> 2)) :: acc)
        | _ => a2bGo rest 0 0 0 (((leftchar <<< 6) ||| v) :: acc)

/-- Python `base64.b64decode` on bytes (default non-validating mode). -/
def a2bBase64 (data : List Nat) : Except PyExc (List Nat) :=
  a2bGo data 0 0 0 []

/-- A symbol of the standard base64 alphabet by index. -/
def stdChar (i : Nat) : Nat :=
  stdB64Alphabet.getD i 0

/-- Python `base64.b64encode`: standard base64 with `=` padding. -/
def b64encode : List Nat → List Nat
  | x :: y :: z :: rest =>
    stdChar (x >>> 2) :: stdChar (((x &&& 3) <<< 4) ||| (y >>> 4)) ::
      stdChar (((y &&& 15) <<< 2) ||| (z >>> 6)) :: stdChar (z &&& 63) :: b64encode rest
  | [x, y] =>
    [stdChar (x >>> 2), stdChar (((x &&& 3) <<< 4) ||| (y >>> 4)),
      stdChar ((y &&& 15) <<< 2), 61]
  | [x] => [stdChar (x >>> 2), stdChar ((x &&& 3) <<< 4), 61, 61]
  | [] => []

/-- Function `decrypt_payload` from the source: standard base64 decode, then XOR
every byte with the key. -/
def decrypt_payload (payload : List Nat) (xorKey : Nat) : Except PyExc (List Nat) :=
  match a2bBase64 payload with
  | .error e => .error e
  | .ok decoded => .ok (decoded.map (fun b => b ^^^ xorKey))

/-- Function `unpack_au3_payload` from the source.  The `try` body is modelled
first; `UnicodeDecodeError` and `binascii.Error` are caught and turned
into `None`, every other exception (notably `IndexError` from the
segment accesses) escapes. -/
def unpack_au3_payload (content : List Nat) : Except PyExc (Option (List Nat)) :=
  let splitted := pySplitL 124 content
  let body : Except PyExc (List Nat) :=
    match pyIndex splitted 1 with
    | .error e => .error e
    | .ok seg1 =>
      match utf8Decode ((seg1.drop 1).take 8) with
      | none => .error .unicodeDecodeError
      | some cps =>
        let xorKeyChars := 97 :: cps
        let k0 := xorKeyChars.length
        let k1 := xorKeyChars.foldl (fun a c => a ^^^ c) k0
        let finalKey := pyNotMask255 k1
        match pyIndex splitted 2 with
        | .error e => .error e
        | .ok seg2 => decrypt_payload seg2 finalKey
  match body with
  | .ok v => .ok (some v)
  | .error .unicodeDecodeError => .ok none
  | .error .binasciiError => .ok none
  | .error e => .error e

/-- One candidate key of `find_darkgate_payload_bruteforce`: XOR the PE
signature, base64-encode, search the content; keys whose first match is
at offset 0, without a following `|`, or with a failing decode are
skipped (`continue`). -/
def bruteKeyOnce (content : List Nat) (xorKey : Nat) : Option (List Nat) :=
  let encoded := PE_START_BYTES.map (fun b => b ^^^ xorKey)
  let b64 := b64encode encoded
  match subIndex? b64 content with
  | none => none
  | some offset =>
    if offset = 0 then none
    else
      match subIndex? [124] (content.drop offset) with
      | none => none
      | some e =>
        if e = 0 then none
        else
          match decrypt_payload ((content.drop offset).take e) xorKey with
          | .ok d => some d
          | .error _ => none

/-- First success of `f` over a list of keys (the early `return` of the
brute-force loop). -/
def firstSome (f : Nat → Option (List Nat)) : List Nat → Option (List Nat)
  | [] => none
  | k :: ks =>
    match f k with
    | some r => some r
    | none => firstSome f ks

/-- Function `find_darkgate_payload_bruteforce` from the source: keys 0 through
255 in ascending order. -/
def find_darkgate_payload_bruteforce (content : List Nat) : Option (List Nat) :=
  firstSome (bruteKeyOnce content) (List.range 256)

/-- Outcome of the final block of `analyze_file`: a printed
configuration with exit code 0, `sys.exit(1)`, or an uncaught
exception (also a nonzero process exit). -/
inductive RunOutcome where
  | success (config : PyDict)
  | failExit
  | crashed (e : PyExc)
deriving DecidableEq

/-- The payload-analysis tail of `analyze_file` (lines 367-379): string
extraction, the truthiness test on the result, configuration parsing
and the optional raw-string inclusion. -/
def analyzeTail (payload : Option (List Nat)) (includeStrings : Bool) : RunOutcome :=
  match payload with
  | none => .failExit
  | some content =>
    match perform_string_extraction content with
    | none => .failExit
    | some result =>
      if result = [] then .failExit
      else
        match get_config result with
        | .ok config =>
          .success (if includeStrings
            then dictSet config (strBytes "strings") (.pyStrList result)
            else config)
        | .error e => .crashed e

/-- Whether a `RunOutcome` corresponds to a nonzero process exit code. -/
def isNonzeroExit : RunOutcome → Bool
  | .success _ => false
  | .failExit => true
  | .crashed _ => true

/-- Reference base64 encoder over an arbitrary alphabet `A`, written
from the specification: split the input into 3-byte groups, view each
group as a 24-bit integer, and map each of its four 6-bit groups to the
corresponding symbol of `A` (only full 3-byte groups are specified). -/
def encode_with_alphabet (A : List Nat) : List Nat → List Nat
  | x :: y :: z :: rest =>
    let n := x * 65536 + y * 256 + z
    A.getD (n / 262144 % 64) 0 :: A.getD (n / 4096 % 64) 0 ::
      A.getD (n / 64 % 64) 0 :: A.getD (n % 64) 0 :: encode_with_alphabet A rest
  | _ => []

/-- One key attempt of the amended brute-force description: the key
succeeds when its encoded signature occurs at a nonzero first-occurrence
offset, a `|` byte follows the match, and the span from the match offset
up to that `|` base64-decodes; the plaintext is the decode XORed with
the key. -/
def spec_bruteforce_step (content : List Nat) (key : Nat) : Option (List Nat) :=
  let pat := b64encode (PE_START_BYTES.map (fun b => b ^^^ key))
  match subIndex? pat content with
  | none => none
  | some off =>
    if off = 0 then none
    else
      let after := content.drop off
      let span := after.takeWhile (fun b => b ≠ 124)
      if span.length < after.length then
        match a2bBase64 span with
        | .ok d => some (d.map (fun b => b ^^^ key))
        | .error _ => none
      else none

/-- The amended brute-force search: the first key in 0..255 whose
attempt succeeds. -/
def spec_bruteforce (content : List Nat) : Option (List Nat) :=
  firstSome (spec_bruteforce_step content) (List.range 256)

/-- The DarkGate base64 symbol set in standard order: the standard
alphabet with `/` replaced by `=`.  Its sorted bytes equal
`sortedClassTarget`. -/
def dgB64Alphabet : List Nat :=
  List.range' 65 26 ++ List.range' 97 26 ++ List.range' 48 10 ++ [43, 61]

/-- A crafted payload: a valid alphabet run, a separator, and a string
candidate that decodes under that alphabet to `http://a|http://b`. -/
def crashPayload : List Nat :=
  dgB64Alphabet ++ [0] ++ strBytes "aHR0cDovL2F8aHR0cDovL2I"

/-- Content whose key-0 encoded signature occurs exactly at offset 0,
followed by a `|`-terminated span. -/
def offsetZeroContent : List Nat :=
  b64encode PE_START_BYTES ++ [124]

/-- The secret slice `splitted[1][1:9]` taken by `unpack_au3_payload`. -/
def au3SecretSlice (content : List Nat) : List Nat :=
  (((pySplitL 124 content).getD 1 []).drop 1).take 8

/-- The C2-list branch of `get_config` as described by the amended
claim: a string is handled when it begins with `http://` or `https://`
(before any trimming); it is then trimmed and split on `|`; with more
than one part, the first empty part is removed and the rest recorded,
and an uncaught `ValueError` is raised when no part is empty. -/
def spec_c2_branch (result : PyDict) (s : List Nat) : Except PyExc PyDict :=
  if leadsWith (strBytes "http://") s || leadsWith (strBytes "https://") s then
    let sp := pySplitL 124 (pyStrip s)
    if 1 < sp.length then
      if sp.any (fun x => x.isEmpty) then
        .ok (dictSet result (strBytes "c2_servers")
          (.pyStrList (sp.eraseP (fun x => x.isEmpty))))
      else .error .valueErrorRemoveMissing
    else .ok result
  else .ok result

instance (priority := 100) exceptPyDecEq {α : Type} [DecidableEq α] :
    DecidableEq (Except PyExc α) := fun x y =>
  match x, y with
  | .ok a, .ok b =>
    if h : a = b then isTrue (by rw [h])
    else isFalse (by intro hc; cases hc; exact h rfl)
  | .ok _, .error _ => isFalse (by intro hc; cases hc)
  | .error _, .ok _ => isFalse (by intro hc; cases hc)
  | .error e, .error f =>
    if h : e = f then isTrue (by rw [h])
    else isFalse (by intro hc; cases hc; exact h rfl)

/-- The `n |= b` step of the accumulation loop: for a six-bit value the
bitwise or after the shift is plain positional arithmetic. -/
theorem shift6_lor_eq (n b : Nat) (hb : b < 64) : (n <<< 6) ||| b = n * 64 + b := by
  apply Nat.eq_of_testBit_eq
  intro i
  rw [Nat.testBit_lor, Nat.shiftLeft_eq]
  rcases Nat.lt_or_ge i 6 with hi | hi
  · have hfalse : (n * 2 ^ 6).testBit i = false := by
      rw [Nat.testBit_to_div_mod]
      interval_cases i <;> simp <;> omega
    rw [hfalse]
    simp only [Bool.false_or]
    rw [Nat.testBit_to_div_mod, Nat.testBit_to_div_mod]
    interval_cases i <;> norm_num <;> omega
  · have hpow : (64 : Nat) ≤ 2 ^ i := by
      calc (64 : Nat) = 2 ^ 6 := by norm_num
      _ ≤ 2 ^ i := Nat.pow_le_pow_right (by norm_num) hi
    have hb2 : b.testBit i = false := Nat.testBit_eq_false_of_lt (lt_of_lt_of_le hb hpow)
    rw [hb2, Bool.or_false]
    obtain ⟨j, rfl⟩ : ∃ j, i = j + 6 := ⟨i - 6, by omega⟩
    rw [Nat.testBit_to_div_mod, Nat.testBit_to_div_mod]
    have h2 : (n * 64 + b) / 2 ^ (j + 6) = n / 2 ^ j := by
      rw [pow_add, Nat.mul_comm (2 ^ j) (2 ^ 6), ← Nat.div_div_eq_div_mul]
      congr 1
      omega
    have h3 : n * 2 ^ 6 / 2 ^ (j + 6) = n / 2 ^ j := by
      rw [pow_add, Nat.mul_comm (2 ^ j) (2 ^ 6), ← Nat.div_div_eq_div_mul]
      congr 1
      omega
    rw [h2, h3]

/-- Masking `n & 255` is reduction modulo 256. -/
theorem and255_eq_mod (n : Nat) : n &&& 255 = n % 256 :=
  Nat.and_pow_two_sub_one_eq_mod n 8

/-- Shifting `n >> 16` is division by 65536. -/
theorem shiftRight16_eq (n : Nat) : n >>> 16 = n / 65536 := by
  rw [Nat.shiftRight_eq_div_pow]

/-- Shifting `n >> 8` is division by 256. -/
theorem shiftRight8_eq (n : Nat) : n >>> 8 = n / 256 := by
  rw [Nat.shiftRight_eq_div_pow]

/-- Python `bytes.find` is negative exactly when the byte is absent. -/
theorem bytesFind_neg_iff (t : List Nat) (c : Nat) : bytesFind t c < 0 ↔ c ∉ t := by
  induction t with
  | nil => simp [bytesFind]
  | cons a as ih =>
    by_cases hac : a = c
    · subst hac
      simp [bytesFind]
    · rw [bytesFind]
      simp only [if_neg hac]
      by_cases hr : bytesFind as c < 0
      · simp only [if_pos hr]
        simp only [List.mem_cons, not_or]
        constructor
        · intro _
          exact ⟨fun h => hac h.symm, ih.mp hr⟩
        · intro _
          norm_num
      · simp only [if_neg hr]
        simp only [List.mem_cons, not_or]
        constructor
        · intro hlt
          omega
        · intro ⟨_, hnotin⟩
          exact absurd (ih.mpr hnotin) hr

/-- On a duplicate-free table, looking up the byte at index `i` finds
exactly index `i`. -/
theorem bytesFind_getD_nodup (A : List Nat) (hA : A.Nodup) :
    ∀ i, i < A.length → bytesFind A (A.getD i 0) = (i : Int) := by
  induction A with
  | nil => intro i hi; simp at hi
  | cons a as ih =>
    intro i hi
    match i with
    | 0 => simp [bytesFind]
    | Nat.succ j =>
      have hjlt : j < as.length := by simpa using hi
      have hmem : as.getD j 0 ∈ as := by
        rw [List.getD_eq_getElem as 0 hjlt]
        exact List.getElem_mem hjlt
      have hne : a ≠ as.getD j 0 := by
        intro hEq
        rw [List.nodup_cons] at hA
        exact hA.1 (hEq ▸ hmem)
      have hrec := ih (List.nodup_cons.mp hA).2 j hjlt
      rw [show (a :: as).getD (j + 1) 0 = as.getD j 0 from rfl, bytesFind]
      rw [if_neg hne, hrec]
      have : ¬((j : Int) < 0) := by omega
      rw [if_neg this]
      omega

/-- An in-range accumulation step with a found symbol appends six bits. -/
theorem b64AccStep_found (block table : List Nat) (n i : Nat) (h : i < block.length)
    (v : Nat) (hv : bytesFind table (block.get ⟨i, h⟩) = (v : Int)) (hvlt : v < 64) :
    b64AccStep block table n i = .ok (n * 64 + v) := by
  rw [b64AccStep, dif_pos h, hv]
  rw [if_neg (by omega : ¬((v : Int) < 0))]
  rw [Int.toNat_natCast, shift6_lor_eq n v hvlt]

/-- An out-of-range accumulation step only shifts. -/
theorem b64AccStep_out (block table : List Nat) (n i : Nat) (h : ¬i < block.length) :
    b64AccStep block table n i = .ok (n * 64) := by
  rw [b64AccStep, dif_neg h, Nat.shiftLeft_eq]

/-- Closed form of `base64_decode_block` on a full four-symbol block
whose symbols are found at indices `i0..i3`. -/
theorem decode_block_full (table : List Nat) (c0 c1 c2 c3 : Nat) (i0 i1 i2 i3 : Nat)
    (hf0 : bytesFind table c0 = (i0 : Int)) (hf1 : bytesFind table c1 = (i1 : Int))
    (hf2 : bytesFind table c2 = (i2 : Int)) (hf3 : bytesFind table c3 = (i3 : Int))
    (h0 : i0 < 64) (h1 : i1 < 64) (h2 : i2 < 64) (h3 : i3 < 64) :
    base64_decode_block [c0, c1, c2, c3] table =
      .ok [i0 * 4 + i1 / 16, i1 % 16 * 16 + i2 / 4, i2 % 4 * 64 + i3] := by
  have s0 := b64AccStep_found [c0, c1, c2, c3] table 0 0 (by norm_num) i0 hf0 h0
  have s1 := b64AccStep_found [c0, c1, c2, c3] table (0 * 64 + i0) 1 (by norm_num) i1 hf1 h1
  have s2 := b64AccStep_found [c0, c1, c2, c3] table ((0 * 64 + i0) * 64 + i1) 2
    (by norm_num) i2 hf2 h2
  have s3 := b64AccStep_found [c0, c1, c2, c3] table (((0 * 64 + i0) * 64 + i1) * 64 + i2) 3
    (by norm_num) i3 hf3 h3
  rw [base64_decode_block, if_neg (by norm_num : ¬([c0, c1, c2, c3].length < 2))]
  simp only [s0, s1, s2, s3]
  rw [if_pos (by norm_num : 4 ≤ [c0, c1, c2, c3].length)]
  rw [shiftRight16_eq, shiftRight8_eq, and255_eq_mod, and255_eq_mod, and255_eq_mod]
  have e1 : ((((0 * 64 + i0) * 64 + i1) * 64 + i2) * 64 + i3) / 65536 % 256 =
      i0 * 4 + i1 / 16 := by omega
  have e2 : ((((0 * 64 + i0) * 64 + i1) * 64 + i2) * 64 + i3) / 256 % 256 =
      i1 % 16 * 16 + i2 / 4 := by omega
  have e3 : ((((0 * 64 + i0) * 64 + i1) * 64 + i2) * 64 + i3) % 256 =
      i2 % 4 * 64 + i3 := by omega
  rw [e1, e2, e3]
  rfl

/-- Closed form of `base64_decode_block` on a three-symbol block: two
output bytes, with the fourth six-bit group zero-padded. -/
theorem decode_block_three (table : List Nat) (c0 c1 c2 : Nat) (i0 i1 i2 : Nat)
    (hf0 : bytesFind table c0 = (i0 : Int)) (hf1 : bytesFind table c1 = (i1 : Int))
    (hf2 : bytesFind table c2 = (i2 : Int))
    (h0 : i0 < 64) (h1 : i1 < 64) (h2 : i2 < 64) :
    base64_decode_block [c0, c1, c2] table =
      .ok [i0 * 4 + i1 / 16, i1 % 16 * 16 + i2 / 4] := by
  have s0 := b64AccStep_found [c0, c1, c2] table 0 0 (by norm_num) i0 hf0 h0
  have s1 := b64AccStep_found [c0, c1, c2] table (0 * 64 + i0) 1 (by norm_num) i1 hf1 h1
  have s2 := b64AccStep_found [c0, c1, c2] table ((0 * 64 + i0) * 64 + i1) 2
    (by norm_num) i2 hf2 h2
  have s3 := b64AccStep_out [c0, c1, c2] table (((0 * 64 + i0) * 64 + i1) * 64 + i2) 3
    (by norm_num)
  rw [base64_decode_block, if_neg (by norm_num : ¬([c0, c1, c2].length < 2))]
  simp only [s0, s1, s2, s3]
  rw [if_neg (by norm_num : ¬(4 ≤ [c0, c1, c2].length))]
  rw [shiftRight16_eq, shiftRight8_eq, and255_eq_mod, and255_eq_mod]
  have e1 : ((((0 * 64 + i0) * 64 + i1) * 64 + i2) * 64) / 65536 % 256 =
      i0 * 4 + i1 / 16 := by omega
  have e2 : ((((0 * 64 + i0) * 64 + i1) * 64 + i2) * 64) / 256 % 256 =
      i1 % 16 * 16 + i2 / 4 := by omega
  rw [e1, e2]

/-- Closed form of `base64_decode_block` on a two-symbol block: two
output bytes, with the last two six-bit groups zero-padded. -/
theorem decode_block_two (table : List Nat) (c0 c1 : Nat) (i0 i1 : Nat)
    (hf0 : bytesFind table c0 = (i0 : Int)) (hf1 : bytesFind table c1 = (i1 : Int))
    (h0 : i0 < 64) (h1 : i1 < 64) :
    base64_decode_block [c0, c1] table =
      .ok [i0 * 4 + i1 / 16, i1 % 16 * 16] := by
  have s0 := b64AccStep_found [c0, c1] table 0 0 (by norm_num) i0 hf0 h0
  have s1 := b64AccStep_found [c0, c1] table (0 * 64 + i0) 1 (by norm_num) i1 hf1 h1
  have s2 := b64AccStep_out [c0, c1] table ((0 * 64 + i0) * 64 + i1) 2 (by norm_num)
  have s3 := b64AccStep_out [c0, c1] table (((0 * 64 + i0) * 64 + i1) * 64) 3 (by norm_num)
  rw [base64_decode_block, if_neg (by norm_num : ¬([c0, c1].length < 2))]
  simp only [s0, s1, s2, s3]
  rw [if_neg (by norm_num : ¬(4 ≤ [c0, c1].length))]
  rw [shiftRight16_eq, shiftRight8_eq, and255_eq_mod, and255_eq_mod]
  have e1 : ((((0 * 64 + i0) * 64 + i1) * 64) * 64) / 65536 % 256 =
      i0 * 4 + i1 / 16 := by omega
  have e2 : ((((0 * 64 + i0) * 64 + i1) * 64) * 64) / 256 % 256 =
      i1 % 16 * 16 := by omega
  rw [e1, e2]

/-- Round-trip core: on a duplicate-free 64-symbol alphabet, decoding
the reference encoding of any byte sequence of length divisible by 3
restores the input (strong induction on a length bound). -/
theorem base64_roundtrip_aux (A : List Nat) (hnd : A.Nodup) (h64 : A.length = 64) :
    ∀ (n : Nat) (bs : List Nat), bs.length ≤ n → bs.length % 3 = 0 →
      (∀ b ∈ bs, b < 256) →
      base64_decode (encode_with_alphabet A bs) A = .ok bs := by
  intro n
  induction n with
  | zero =>
    intro bs hle _ _
    have hbs : bs = [] := List.length_eq_zero.mp (Nat.le_zero.mp hle)
    subst hbs
    simp [encode_with_alphabet, base64_decode]
  | succ n ih =>
    intro bs hle h3 hb
    match bs with
    | [] => simp [encode_with_alphabet, base64_decode]
    | [x] => simp at h3
    | [x, y] => simp at h3
    | x :: y :: z :: rest =>
      have hx : x < 256 := hb x (by simp)
      have hy : y < 256 := hb y (by simp)
      have hz : z < 256 := hb z (by simp)
      have hrest : ∀ b ∈ rest, b < 256 := fun b hbm => hb b (by simp [hbm])
      have hlen3 : rest.length % 3 = 0 := by
        simp only [List.length_cons] at h3
        omega
      have hlenle : rest.length ≤ n := by
        simp only [List.length_cons] at hle
        omega
      have hrec := ih rest hlenle hlen3 hrest
      have hi0 : (x * 65536 + y * 256 + z) / 262144 % 64 < 64 := Nat.mod_lt _ (by norm_num)
      have hi1 : (x * 65536 + y * 256 + z) / 4096 % 64 < 64 := Nat.mod_lt _ (by norm_num)
      have hi2 : (x * 65536 + y * 256 + z) / 64 % 64 < 64 := Nat.mod_lt _ (by norm_num)
      have hi3 : (x * 65536 + y * 256 + z) % 64 < 64 := Nat.mod_lt _ (by norm_num)
      have hf0 := bytesFind_getD_nodup A hnd ((x * 65536 + y * 256 + z) / 262144 % 64)
        (by rw [h64]; exact hi0)
      have hf1 := bytesFind_getD_nodup A hnd ((x * 65536 + y * 256 + z) / 4096 % 64)
        (by rw [h64]; exact hi1)
      have hf2 := bytesFind_getD_nodup A hnd ((x * 65536 + y * 256 + z) / 64 % 64)
        (by rw [h64]; exact hi2)
      have hf3 := bytesFind_getD_nodup A hnd ((x * 65536 + y * 256 + z) % 64)
        (by rw [h64]; exact hi3)
      have hblock := decode_block_full A _ _ _ _ _ _ _ _ hf0 hf1 hf2 hf3 hi0 hi1 hi2 hi3
      have c1 : (x * 65536 + y * 256 + z) / 262144 % 64 * 4 +
          (x * 65536 + y * 256 + z) / 4096 % 64 / 16 = x := by omega
      have c2 : (x * 65536 + y * 256 + z) / 4096 % 64 % 16 * 16 +
          (x * 65536 + y * 256 + z) / 64 % 64 / 4 = y := by omega
      have c3 : (x * 65536 + y * 256 + z) / 64 % 64 % 4 * 64 +
          (x * 65536 + y * 256 + z) % 64 = z := by omega
      rw [c1, c2, c3] at hblock
      have henc : encode_with_alphabet A (x :: y :: z :: rest) =
          A.getD ((x * 65536 + y * 256 + z) / 262144 % 64) 0 ::
          A.getD ((x * 65536 + y * 256 + z) / 4096 % 64) 0 ::
          A.getD ((x * 65536 + y * 256 + z) / 64 % 64) 0 ::
          A.getD ((x * 65536 + y * 256 + z) % 64) 0 :: encode_with_alphabet A rest := rfl
      rw [henc]
      simp only [base64_decode, hblock, hrec]
      rfl

/-- C8: for every byte sequence whose length is divisible by 3 and every
alphabet that is a permutation of the 64 standard base64 symbols,
decoding with `base64_decode` the reference encoding of the bytes under
that alphabet returns the original byte sequence. -/
theorem c8_roundtrip (A bs : List Nat) (hA : A.Perm stdB64Alphabet)
    (h3 : bs.length % 3 = 0) (hb : ∀ b ∈ bs, b < 256) :
    base64_decode (encode_with_alphabet A bs) A = .ok bs := by
  have hnd : A.Nodup := hA.nodup_iff.mpr (by decide)
  have h64 : A.length = 64 := by rw [hA.length_eq]; rfl
  exact base64_roundtrip_aux A hnd h64 bs.length bs le_rfl h3 hb

/-- Witness for `c8_roundtrip`: the standard alphabet and the three
bytes of "htt". -/
theorem c8_roundtrip_witness :
    stdB64Alphabet.Perm stdB64Alphabet ∧ ([104, 116, 116] : List Nat).length % 3 = 0 ∧
    base64_decode (encode_with_alphabet stdB64Alphabet [104, 116, 116]) stdB64Alphabet =
      .ok [104, 116, 116] :=
  ⟨List.Perm.refl _, by decide,
    c8_roundtrip stdB64Alphabet [104, 116, 116] (List.Perm.refl _) (by decide) (by decide)⟩

/-- C1 counterexample: the true standard base64 alphabet (ending in
`+/`) is itself a 64-byte class run, yet `get_alphabet_candidates`
rejects it, because the comparison string of the source contains `=`
and not `/`. -/
theorem c1_alphabet_cex :
    stdB64Alphabet ∈ findAll64 stdB64Alphabet ∧
    get_alphabet_candidates stdB64Alphabet = [] :=
  ⟨by decide, by decide⟩

/-- C1 (amended): a 64-byte class run found by the scan is accepted iff
its sorted bytes equal the fixed target set `A-Z a-z 0-9 + =` (the
standard set with `/` replaced by `=`); that set in standard order and
its rotation are accepted, the true standard alphabet is rejected, and
a run with a repeated and a missing character is rejected. -/
theorem c1_alphabet_amended :
    (∀ content run, run ∈ findAll64 content →
      (run ∈ get_alphabet_candidates content ↔ pySorted run = sortedClassTarget)) ∧
    get_alphabet_candidates dgB64Alphabet = [dgB64Alphabet] ∧
    get_alphabet_candidates (dgB64Alphabet.drop 1 ++ dgB64Alphabet.take 1) =
      [dgB64Alphabet.drop 1 ++ dgB64Alphabet.take 1] ∧
    get_alphabet_candidates stdB64Alphabet = [] ∧
    get_alphabet_candidates (dgB64Alphabet.take 63 ++ [65]) = [] := by
  refine ⟨?_, by decide, by decide, by decide, by decide⟩
  intro content run hmem
  constructor
  · intro hin
    have h := (List.mem_filter.mp hin).2
    exact of_decide_eq_true h
  · intro hsort
    exact List.mem_filter.mpr ⟨hmem, by simp [hsort]⟩

/-- Witness for `c1_alphabet_amended`: the DarkGate symbol set in
standard order is found by the scan and the acceptance equivalence
holds for it. -/
theorem c1_alphabet_amended_witness :
    dgB64Alphabet ∈ findAll64 dgB64Alphabet ∧
    (dgB64Alphabet ∈ get_alphabet_candidates dgB64Alphabet ↔
      pySorted dgB64Alphabet = sortedClassTarget) :=
  ⟨by decide, c1_alphabet_amended.1 dgB64Alphabet dgB64Alphabet (by decide)⟩

/-- A failing in-range accumulation step raises the invalid-char error. -/
theorem b64AccStep_bad (block table : List Nat) (n i : Nat) (h : i < block.length)
    (hneg : bytesFind table (block.get ⟨i, h⟩) < 0) :
    b64AccStep block table n i = .error (.valueErrorB64InvalidChar (block.get ⟨i, h⟩)) := by
  rw [b64AccStep, dif_pos h, if_pos hneg]

/-- A successful accumulation step implies the symbol at that in-range
position was found. -/
theorem b64AccStep_ok_found (block table : List Nat) (n i m : Nat)
    (hok : b64AccStep block table n i = .ok m) (h : i < block.length) :
    ¬bytesFind table (block.get ⟨i, h⟩) < 0 := by
  intro hneg
  rw [b64AccStep_bad block table n i h hneg] at hok
  cases hok

/-- C5 counterexample: a one-symbol window does not yield two bytes;
`base64_decode_block` rejects every block shorter than two symbols with
the length error, so a one-symbol window always fails. -/
theorem c5_block_cex :
    base64_decode_block [65] stdB64Alphabet = .error .valueErrorB64DecodeError := rfl

/-- C5 (amended): a window of fewer than 2 symbols raises the length
error; a successful decode emits exactly 2 bytes for windows of length
2 or 3 and exactly 3 bytes for windows with all 4 symbols (never
exactly 1 byte); success requires every window symbol to be found in
the alphabet, an absent symbol raising the invalid-symbol error; and on
found indices the emitted bytes are the high bytes of the 24-bit
zero-padded accumulator. -/
theorem c5_block_amended :
    (∀ block table : List Nat, block.length < 2 →
      base64_decode_block block table = .error .valueErrorB64DecodeError) ∧
    (∀ block table r, base64_decode_block block table = .ok r →
      r.length = if 4 ≤ block.length then 3 else 2) ∧
    (∀ block table r c, base64_decode_block block table = .ok r → c ∈ block.take 4 →
      0 ≤ bytesFind table c) ∧
    base64_decode_block [65, 1] stdB64Alphabet = .error (.valueErrorB64InvalidChar 1) ∧
    (∀ (table : List Nat) (c0 c1 c2 c3 i0 i1 i2 i3 : Nat),
      bytesFind table c0 = (i0 : Int) → bytesFind table c1 = (i1 : Int) →
      bytesFind table c2 = (i2 : Int) → bytesFind table c3 = (i3 : Int) →
      i0 < 64 → i1 < 64 → i2 < 64 → i3 < 64 →
      base64_decode_block [c0, c1, c2, c3] table =
        .ok [i0 * 4 + i1 / 16, i1 % 16 * 16 + i2 / 4, i2 % 4 * 64 + i3] ∧
      base64_decode_block [c0, c1, c2] table =
        .ok [i0 * 4 + i1 / 16, i1 % 16 * 16 + i2 / 4] ∧
      base64_decode_block [c0, c1] table = .ok [i0 * 4 + i1 / 16, i1 % 16 * 16]) := by
  refine ⟨?_, ?_, ?_, by decide, ?_⟩
  · intro block table hlen
    rw [base64_decode_block, if_pos hlen]
  · intro block table r hok
    rw [base64_decode_block] at hok
    by_cases hlen : block.length < 2
    · rw [if_pos hlen] at hok
      cases hok
    · rw [if_neg hlen] at hok
      cases h0 : b64AccStep block table 0 0 with
      | error e =>
        simp only [h0] at hok
        exact Except.noConfusion hok
      | ok n1 =>
        simp only [h0] at hok
        cases h1 : b64AccStep block table n1 1 with
        | error e =>
          simp only [h1] at hok
          exact Except.noConfusion hok
        | ok n2 =>
          simp only [h1] at hok
          cases h2 : b64AccStep block table n2 2 with
          | error e =>
            simp only [h2] at hok
            exact Except.noConfusion hok
          | ok n3 =>
            simp only [h2] at hok
            cases h3 : b64AccStep block table n3 3 with
            | error e =>
              simp only [h3] at hok
              exact Except.noConfusion hok
            | ok n =>
              simp only [h3] at hok
              by_cases h4 : 4 ≤ block.length
              · rw [if_pos h4] at hok
                cases hok
                simp [h4]
              · rw [if_neg h4] at hok
                cases hok
                simp [h4]
  · intro block table r c hok hmem
    rw [base64_decode_block] at hok
    by_cases hlen : block.length < 2
    · rw [if_pos hlen] at hok
      cases hok
    · rw [if_neg hlen] at hok
      cases h0 : b64AccStep block table 0 0 with
      | error e =>
        simp only [h0] at hok
        exact Except.noConfusion hok
      | ok n1 =>
        simp only [h0] at hok
        cases h1 : b64AccStep block table n1 1 with
        | error e =>
          simp only [h1] at hok
          exact Except.noConfusion hok
        | ok n2 =>
          simp only [h1] at hok
          cases h2 : b64AccStep block table n2 2 with
          | error e =>
            simp only [h2] at hok
            exact Except.noConfusion hok
          | ok n3 =>
            simp only [h2] at hok
            cases h3 : b64AccStep block table n3 3 with
            | error e =>
              simp only [h3] at hok
              exact Except.noConfusion hok
            | ok n =>
              obtain ⟨i, hm, hget⟩ := List.mem_take_iff_getElem.mp hmem
              have hilen : i < block.length := lt_of_lt_of_le hm (min_le_right _ _)
              have hgetc : block.get ⟨i, hilen⟩ = c := hget
              have hi4 : i < 4 := lt_of_lt_of_le hm (min_le_left _ _)
              rw [← hgetc]
              have hfound : ¬bytesFind table (block.get ⟨i, hilen⟩) < 0 := by
                interval_cases i
                · exact b64AccStep_ok_found block table 0 0 n1 h0 hilen
                · exact b64AccStep_ok_found block table n1 1 n2 h1 hilen
                · exact b64AccStep_ok_found block table n2 2 n3 h2 hilen
                · exact b64AccStep_ok_found block table n3 3 n h3 hilen
              omega
  · intro table c0 c1 c2 c3 i0 i1 i2 i3 hf0 hf1 hf2 hf3 h0 h1 h2 h3
    exact ⟨decode_block_full table c0 c1 c2 c3 i0 i1 i2 i3 hf0 hf1 hf2 hf3 h0 h1 h2 h3,
      decode_block_three table c0 c1 c2 i0 i1 i2 hf0 hf1 hf2 h0 h1 h2,
      decode_block_two table c0 c1 i0 i1 hf0 hf1 h0 h1⟩

/-- Witness for `c5_block_amended`: the closed forms at the first four
standard-alphabet symbols. -/
theorem c5_block_amended_witness :
    base64_decode_block [65, 66, 67, 68] stdB64Alphabet =
      .ok [0 * 4 + 1 / 16, 1 % 16 * 16 + 2 / 4, 2 % 4 * 64 + 3] ∧
    base64_decode_block [65, 66, 67] stdB64Alphabet =
      .ok [0 * 4 + 1 / 16, 1 % 16 * 16 + 2 / 4] ∧
    base64_decode_block [65, 66] stdB64Alphabet = .ok [0 * 4 + 1 / 16, 1 % 16 * 16] :=
  c5_block_amended.2.2.2.2 stdB64Alphabet 65 66 67 68 0 1 2 3 (by decide) (by decide)
    (by decide) (by decide) (by decide) (by decide) (by decide) (by decide)

/-- A list's initial segment of length `(takeWhile p).length` is
`takeWhile p` itself. -/
theorem take_len_takeWhile (p : Nat → Bool) (l : List Nat) :
    l.take (l.takeWhile p).length = l.takeWhile p := by
  induction l with
  | nil => rfl
  | cons b bs ih =>
    by_cases hb : p b
    · simp [List.takeWhile_cons, hb, ih]
    · simp [List.takeWhile_cons, hb]

/-- Searching for a single byte finds the length of the initial run of
other bytes, when that run is shorter than the list. -/
theorem subIndex_single (x : Nat) (l : List Nat) :
    subIndex? [x] l =
      if (l.takeWhile (fun b => b ≠ x)).length < l.length
      then some (l.takeWhile (fun b => b ≠ x)).length else none := by
  induction l with
  | nil => simp [subIndex?]
  | cons b bs ih =>
    rw [subIndex?]
    by_cases hbx : b = x
    · subst hbx
      have hlw : leadsWith [b] (b :: bs) = true := by simp [leadsWith]
      rw [if_pos hlw]
      have htw : (b :: bs).takeWhile (fun c => c ≠ b) = [] := by
        simp [List.takeWhile_cons]
      rw [htw]
      simp
    · have hlw : ¬leadsWith [x] (b :: bs) = true := by
        simp [leadsWith]
        intro hxb
        exact absurd hxb.symm hbx
      rw [if_neg hlw, ih]
      have htw : (b :: bs).takeWhile (fun c => c ≠ x) =
          b :: bs.takeWhile (fun c => c ≠ x) := by
        simp [List.takeWhile_cons, hbx]
      rw [htw]
      by_cases hc : (bs.takeWhile (fun c => c ≠ x)).length < bs.length
      · rw [if_pos hc, if_pos (by simpa using Nat.succ_lt_succ hc)]
        rfl
      · rw [if_neg hc, if_neg (by simpa using fun h => hc (Nat.lt_of_succ_lt_succ h))]
        rfl

/-- A successful substring search means the needle leads the suffix at
the found offset. -/
theorem subIndex_leadsWith (needle : List Nat) :
    ∀ (l : List Nat) (off : Nat), subIndex? needle l = some off →
      leadsWith needle (l.drop off) = true := by
  intro l
  induction l with
  | nil =>
    intro off h
    rw [subIndex?] at h
    by_cases hn : needle = []
    · rw [if_pos hn] at h
      injection h with h2
      subst h2
      subst hn
      rfl
    · rw [if_neg hn] at h
      cases h
  | cons b bs ih =>
    intro off h
    rw [subIndex?] at h
    by_cases hl : leadsWith needle (b :: bs) = true
    · rw [if_pos hl] at h
      injection h with h2
      subst h2
      simpa using hl
    · rw [if_neg hl] at h
      cases hsub : subIndex? needle bs with
      | none => rw [hsub] at h; cases h
      | some off2 =>
        rw [hsub] at h
        injection h with h2
        subst h2
        simpa using ih off2 hsub

/-- A leading match on a nonempty needle forces the first byte. -/
theorem leadsWith_head (a : Nat) (as l : List Nat)
    (h : leadsWith (a :: as) l = true) : ∃ t, l = a :: t := by
  cases l with
  | nil => cases h
  | cons b bs =>
    rw [leadsWith] at h
    have hab : a = b := by simpa using (Bool.and_eq_true _ _ |>.mp h).1
    exact ⟨bs, by rw [hab]⟩

/-- No symbol of the standard base64 alphabet is the `|` byte. -/
theorem stdChar_ne_124 (i : Nat) : stdChar i ≠ 124 := by
  rw [stdChar]
  by_cases h : i < stdB64Alphabet.length
  · rw [List.getD_eq_getElem _ _ h]
    have hall : ∀ b ∈ stdB64Alphabet, b ≠ 124 := by decide
    exact hall _ (List.getElem_mem h)
  · rw [List.getD_eq_default _ _ (le_of_not_lt h)]
    norm_num

/-- No byte of a `base64.b64encode` output is the `|` byte. -/
theorem b64encode_ne_124 : ∀ (l : List Nat), ∀ b ∈ b64encode l, b ≠ 124
  | [] => by simp [b64encode]
  | [x] => by
    intro b hb
    rw [show b64encode [x] = [stdChar (x >>> 2), stdChar ((x &&& 3) <<< 4), 61, 61] from rfl]
      at hb
    simp only [List.mem_cons, List.not_mem_nil, or_false] at hb
    rcases hb with rfl | rfl | rfl | rfl
    · exact stdChar_ne_124 _
    · exact stdChar_ne_124 _
    · norm_num
    · norm_num
  | [x, y] => by
    intro b hb
    rw [show b64encode [x, y] = [stdChar (x >>> 2), stdChar (((x &&& 3) <<< 4) ||| (y >>> 4)),
        stdChar ((y &&& 15) <<< 2), 61] from rfl] at hb
    simp only [List.mem_cons, List.not_mem_nil, or_false] at hb
    rcases hb with rfl | rfl | rfl | rfl
    · exact stdChar_ne_124 _
    · exact stdChar_ne_124 _
    · exact stdChar_ne_124 _
    · norm_num
  | x :: y :: z :: rest => by
    intro b hb
    rw [show b64encode (x :: y :: z :: rest) = stdChar (x >>> 2) ::
        stdChar (((x &&& 3) <<< 4) ||| (y >>> 4)) ::
        stdChar (((y &&& 15) <<< 2) ||| (z >>> 6)) :: stdChar (z &&& 63) ::
        b64encode rest from rfl] at hb
    simp only [List.mem_cons] at hb
    rcases hb with rfl | rfl | rfl | rfl | hmem
    · exact stdChar_ne_124 _
    · exact stdChar_ne_124 _
    · exact stdChar_ne_124 _
    · exact stdChar_ne_124 _
    · exact b64encode_ne_124 rest b hmem

/-- One brute-force key attempt of the source equals the amended
specification attempt. -/
theorem bruteKeyOnce_eq_spec (content : List Nat) (key : Nat) :
    bruteKeyOnce content key = spec_bruteforce_step content key := by
  simp only [bruteKeyOnce, spec_bruteforce_step]
  cases hoff : subIndex? (b64encode (PE_START_BYTES.map (fun b => b ^^^ key))) content with
  | none => rfl
  | some off =>
    dsimp only
    by_cases h0 : off = 0
    · rw [if_pos h0, if_pos h0]
    · rw [if_neg h0, if_neg h0]
      have hlead := subIndex_leadsWith _ content off hoff
      have hpat : b64encode (PE_START_BYTES.map (fun b => b ^^^ key)) =
          stdChar ((0x4D ^^^ key) >>> 2) ::
          stdChar ((((0x4D ^^^ key) &&& 3) <<< 4) ||| ((0x5A ^^^ key) >>> 4)) ::
          stdChar ((((0x5A ^^^ key) &&& 15) <<< 2) ||| ((0x50 ^^^ key) >>> 6)) ::
          stdChar ((0x50 ^^^ key) &&& 63) ::
          b64encode ((PE_START_BYTES.map (fun b => b ^^^ key)).drop 3) := rfl
      rw [hpat] at hlead
      obtain ⟨t, ht⟩ := leadsWith_head _ _ _ hlead
      have hne : stdChar ((0x4D ^^^ key) >>> 2) ≠ 124 := stdChar_ne_124 _
      have htw : (content.drop off).takeWhile (fun b => b ≠ 124) =
          stdChar ((0x4D ^^^ key) >>> 2) :: (t.takeWhile (fun b => b ≠ 124)) := by
        rw [ht]
        simp [List.takeWhile_cons, hne]
      rw [subIndex_single, htw]
      by_cases hc : (stdChar ((0x4D ^^^ key) >>> 2) :: (t.takeWhile (fun b => b ≠ 124))).length <
          (content.drop off).length
      · rw [if_pos hc, if_pos (htw ▸ hc)]
        dsimp only
        have hlen0 : ¬(stdChar ((0x4D ^^^ key) >>> 2) ::
            (t.takeWhile (fun b => b ≠ 124))).length = 0 := by simp
        rw [if_neg hlen0]
        have htake : (content.drop off).take (stdChar ((0x4D ^^^ key) >>> 2) ::
            (t.takeWhile (fun b => b ≠ 124))).length =
            (content.drop off).takeWhile (fun b => b ≠ 124) := by
          rw [← htw]
          exact take_len_takeWhile _ _
        rw [htake, htw, decrypt_payload]
        cases a2bBase64 (stdChar ((0x4D ^^^ key) >>> 2) :: (t.takeWhile (fun b => b ≠ 124)))
          with
        | error e => rfl
        | ok dec => rfl
      · rw [if_neg hc, if_neg (htw ▸ hc)]

/-- Function `firstSome` respects pointwise equal attempt functions. -/
theorem firstSome_congr (f g : Nat → Option (List Nat)) (h : ∀ k, f k = g k) :
    ∀ ks, firstSome f ks = firstSome g ks
  | [] => rfl
  | k :: ks => by
    rw [firstSome, firstSome, h k]
    cases g k with
    | some r => rfl
    | none => exact firstSome_congr f g h ks

/-- C2 counterexample: for this content the key-0 encoded signature
occurs exactly at offset 0 with a `|`-terminated span after it, yet the
brute-force search returns no payload: a key whose first occurrence is
at offset 0 is skipped. -/
theorem c2_bruteforce_cex :
    subIndex? (b64encode (PE_START_BYTES.map (fun b => b ^^^ 0))) offsetZeroContent = some 0 ∧
    find_darkgate_payload_bruteforce offsetZeroContent = none :=
  ⟨rfl, rfl⟩

/-- C2 (amended): the brute-force search tries keys 0..255 in ascending
order and returns, for the first key whose encoded signature occurs in
the content at a nonzero first-occurrence offset with a `|` byte after
the match and a base64-decodable span up to it, that span decoded and
XORed with the key; keys matching only at offset 0, without a following
`|`, or with a failing decode are skipped, and if no key succeeds there
is no payload. -/
theorem c2_bruteforce_amended (content : List Nat) :
    find_darkgate_payload_bruteforce content = spec_bruteforce content :=
  firstSome_congr _ _ (bruteKeyOnce_eq_spec content) _

/-- Splitting on a separator yields one more part than the separator
count. -/
theorem pySplitL_length (sep : Nat) (l : List Nat) :
    (pySplitL sep l).length = l.count sep + 1 := by
  induction l with
  | nil => rfl
  | cons c rest ih =>
    rw [pySplitL]
    by_cases hc : c = sep
    · rw [if_pos hc]
      simp [List.count_cons, hc, ih]
    · rw [if_neg hc]
      cases hr : pySplitL sep rest with
      | nil => rw [hr] at ih; simp at ih
      | cons h t =>
        rw [hr] at ih
        simp only [List.length_cons] at ih
        simp [List.count_cons, hc, ih]

/-- An all-ASCII byte sequence UTF-8 decodes to itself (fuel form). -/
theorem utf8DecodeF_ascii (fuel : Nat) : ∀ (l : List Nat), l.length ≤ fuel →
    (∀ b ∈ l, b < 128) → utf8DecodeF fuel l = some l := by
  induction fuel with
  | zero =>
    intro l hlen _
    have hnil : l = [] := List.length_eq_zero.mp (Nat.le_zero.mp hlen)
    subst hnil
    rfl
  | succ fuel ih =>
    intro l hlen hb
    cases l with
    | nil => rfl
    | cons b rest =>
      have hlt : b < 128 := hb b (by simp)
      have hrest : rest.length ≤ fuel := by
        simp only [List.length_cons] at hlen
        omega
      simp only [utf8DecodeF]
      rw [if_pos hlt, ih rest hrest (fun c hc => hb c (by simp [hc]))]
      rfl

/-- An all-ASCII byte sequence UTF-8 decodes to itself. -/
theorem utf8Decode_ascii (l : List Nat) (h : ∀ b ∈ l, b < 128) :
    utf8Decode l = some l :=
  utf8DecodeF_ascii l.length l le_rfl h

/-- Every error produced by the `a2b_base64` state machine is
`binascii.Error`. -/
theorem a2bGo_error : ∀ (l : List Nat) (q lc p : Nat) (acc : List Nat) (e : PyExc),
    a2bGo l q lc p acc = .error e → e = .binasciiError
  | [] => by
    intro q lc p acc e h
    rw [a2bGo] at h
    by_cases hq : q = 0
    · rw [if_pos hq] at h
      cases h
    · rw [if_neg hq] at h
      injection h with h2
      exact h2.symm
  | c :: rest => by
    intro q lc p acc e h
    rw [a2bGo] at h
    by_cases hc : c = 61
    · rw [if_pos hc] at h
      by_cases h2 : 2 ≤ q
      · rw [if_pos h2] at h
        by_cases h4 : 4 ≤ q + (p + 1)
        · rw [if_pos h4] at h
          cases h
        · rw [if_neg h4] at h
          exact a2bGo_error rest _ _ _ _ _ h
      · rw [if_neg h2] at h
        exact a2bGo_error rest _ _ _ _ _ h
    · rw [if_neg hc] at h
      cases hidx : stdB64Index c with
      | none =>
        simp only [hidx] at h
        exact a2bGo_error rest _ _ _ _ _ h
      | some v =>
        simp only [hidx] at h
        rcases q with _ | _ | _ | q3
        · exact a2bGo_error rest _ _ _ _ _ h
        · exact a2bGo_error rest _ _ _ _ _ h
        · exact a2bGo_error rest _ _ _ _ _ h
        · exact a2bGo_error rest _ _ _ _ _ h

/-- Every error of `base64.b64decode` is `binascii.Error`. -/
theorem a2bBase64_error (l : List Nat) (e : PyExc) (h : a2bBase64 l = .error e) :
    e = .binasciiError :=
  a2bGo_error l 0 0 0 [] e h

/-- C3 counterexample: the empty input splits into a single segment
(fewer than 3), and `unpack_au3_payload` raises an uncaught
`IndexError` on it instead of returning no payload. -/
theorem c3_unpack_cex : unpack_au3_payload [] = .error .indexError := rfl

/-- C3 (amended): with at least 3 segments `unpack_au3_payload` never
raises — it returns a payload or `None`, and in particular `None` when
the secret bytes fail UTF-8 decoding or when segment 3 is malformed
base64; an input with no `|` byte instead raises an uncaught
`IndexError`. -/
theorem c3_unpack_amended (content : List Nat) :
    (2 ≤ content.count 124 →
      unpack_au3_payload content = .ok none ∨
        ∃ p, unpack_au3_payload content = .ok (some p)) ∧
    (2 ≤ content.count 124 → utf8Decode (au3SecretSlice content) = none →
      unpack_au3_payload content = .ok none) ∧
    (2 ≤ content.count 124 →
      a2bBase64 ((pySplitL 124 content).getD 2 []) = .error .binasciiError →
      unpack_au3_payload content = .ok none) ∧
    (content.count 124 = 0 → unpack_au3_payload content = .error .indexError) := by
  have hsplen : (pySplitL 124 content).length = content.count 124 + 1 :=
    pySplitL_length _ _
  refine ⟨?_, ?_, ?_, ?_⟩
  · intro h2
    have h1lt : 1 < (pySplitL 124 content).length := by omega
    have h2lt : 2 < (pySplitL 124 content).length := by omega
    have hp1 : pyIndex (pySplitL 124 content) 1 =
        .ok ((pySplitL 124 content).get ⟨1, h1lt⟩) := by
      rw [pyIndex, dif_pos h1lt]
    have hp2 : pyIndex (pySplitL 124 content) 2 =
        .ok ((pySplitL 124 content).get ⟨2, h2lt⟩) := by
      rw [pyIndex, dif_pos h2lt]
    simp only [unpack_au3_payload, hp1, hp2]
    cases hu : utf8Decode ((((pySplitL 124 content).get ⟨1, h1lt⟩).drop 1).take 8) with
    | none => exact Or.inl rfl
    | some cps =>
      simp only [decrypt_payload]
      cases ha : a2bBase64 ((pySplitL 124 content).get ⟨2, h2lt⟩) with
      | error e =>
        have he := a2bBase64_error _ _ ha
        subst he
        exact Or.inl rfl
      | ok dec => exact Or.inr ⟨_, rfl⟩
  · intro h2 hu
    have h1lt : 1 < (pySplitL 124 content).length := by omega
    have hp1 : pyIndex (pySplitL 124 content) 1 =
        .ok ((pySplitL 124 content).get ⟨1, h1lt⟩) := by
      rw [pyIndex, dif_pos h1lt]
    have hslice : au3SecretSlice content =
        (((pySplitL 124 content).get ⟨1, h1lt⟩).drop 1).take 8 := by
      rw [au3SecretSlice, List.getD_eq_getElem _ _ h1lt]
      rfl
    rw [hslice] at hu
    simp only [unpack_au3_payload, hp1, hu]
  · intro h2 ha
    have h1lt : 1 < (pySplitL 124 content).length := by omega
    have h2lt : 2 < (pySplitL 124 content).length := by omega
    have hp1 : pyIndex (pySplitL 124 content) 1 =
        .ok ((pySplitL 124 content).get ⟨1, h1lt⟩) := by
      rw [pyIndex, dif_pos h1lt]
    have hp2 : pyIndex (pySplitL 124 content) 2 =
        .ok ((pySplitL 124 content).get ⟨2, h2lt⟩) := by
      rw [pyIndex, dif_pos h2lt]
    have ha2 : a2bBase64 ((pySplitL 124 content).get ⟨2, h2lt⟩) = .error .binasciiError := by
      have hgd : (pySplitL 124 content).getD 2 [] = (pySplitL 124 content).get ⟨2, h2lt⟩ := by
        rw [List.getD_eq_getElem _ _ h2lt, List.get_eq_getElem]
      rw [← hgd]
      exact ha
    simp only [unpack_au3_payload, hp1, hp2]
    cases hu : utf8Decode ((((pySplitL 124 content).get ⟨1, h1lt⟩).drop 1).take 8) with
    | none => rfl
    | some cps =>
      simp only [decrypt_payload]
      rw [ha2]
  · intro h0
    have hnlt : ¬1 < (pySplitL 124 content).length := by omega
    have hp1 : pyIndex (pySplitL 124 content) 1 = .error .indexError := by
      rw [pyIndex, dif_neg hnlt]
    simp only [unpack_au3_payload, hp1]

/-- Witness for `c3_unpack_amended`: a three-segment input whose secret
slice is not valid UTF-8 yields no payload without raising. -/
theorem c3_unpack_amended_witness :
    2 ≤ ([65, 124, 88, 255, 124, 65] : List Nat).count 124 ∧
    utf8Decode (au3SecretSlice [65, 124, 88, 255, 124, 65]) = none ∧
    unpack_au3_payload [65, 124, 88, 255, 124, 65] = .ok none :=
  ⟨by decide, rfl, (c3_unpack_amended _).2.1 (by decide) rfl⟩

/-- C4: with at least 3 segments, an 8-byte ASCII secret slice and a
well-formed base64 segment 3, `unpack_au3_payload` prepends the literal
character to the slice, folds the key as XOR of the character ordinals
over the secret length, complements and masks it, and returns segment 3
decoded and XORed with that key. -/
theorem c4_embedded_key (content d : List Nat)
    (hseg : 3 ≤ (pySplitL 124 content).length)
    (hlen8 : (au3SecretSlice content).length = 8)
    (hascii : ∀ b ∈ au3SecretSlice content, b < 128)
    (hdec : a2bBase64 ((pySplitL 124 content).getD 2 []) = .ok d) :
    unpack_au3_payload content =
      .ok (some (d.map (fun b => b ^^^
        pyNotMask255 ((97 :: au3SecretSlice content).foldl (fun a c => a ^^^ c)
          (97 :: au3SecretSlice content).length)))) := by
  have h1lt : 1 < (pySplitL 124 content).length := by omega
  have h2lt : 2 < (pySplitL 124 content).length := by omega
  have hp1 : pyIndex (pySplitL 124 content) 1 =
      .ok ((pySplitL 124 content).get ⟨1, h1lt⟩) := by
    rw [pyIndex, dif_pos h1lt]
  have hp2 : pyIndex (pySplitL 124 content) 2 =
      .ok ((pySplitL 124 content).get ⟨2, h2lt⟩) := by
    rw [pyIndex, dif_pos h2lt]
  have hsliceeq : au3SecretSlice content =
      (((pySplitL 124 content).get ⟨1, h1lt⟩).drop 1).take 8 := by
    rw [au3SecretSlice, List.getD_eq_getElem _ _ h1lt]
    rfl
  have hu : utf8Decode ((((pySplitL 124 content).get ⟨1, h1lt⟩).drop 1).take 8) =
      some ((((pySplitL 124 content).get ⟨1, h1lt⟩).drop 1).take 8) := by
    rw [← hsliceeq]
    exact utf8Decode_ascii _ hascii
  have hdec2 : a2bBase64 ((pySplitL 124 content).get ⟨2, h2lt⟩) = .ok d := by
    have hgd : (pySplitL 124 content).getD 2 [] = (pySplitL 124 content).get ⟨2, h2lt⟩ := by
      rw [List.getD_eq_getElem _ _ h2lt, List.get_eq_getElem]
    rw [← hgd]
    exact hdec
  simp only [unpack_au3_payload, hp1, hu, hp2, decrypt_payload, hdec2]
  rw [hsliceeq]

/-- Witness for `c4_embedded_key`: the script
`"A|X12345678Y|aHR0"`, whose secret slice is `"12345678"` and whose
segment 3 decodes to `"htt"`. -/
theorem c4_embedded_key_witness :
    3 ≤ (pySplitL 124 (strBytes "A|X12345678Y|aHR0")).length ∧
    (au3SecretSlice (strBytes "A|X12345678Y|aHR0")).length = 8 ∧
    a2bBase64 ((pySplitL 124 (strBytes "A|X12345678Y|aHR0")).getD 2 []) =
      .ok [104, 116, 116] ∧
    unpack_au3_payload (strBytes "A|X12345678Y|aHR0") =
      .ok (some ([104, 116, 116].map (fun b => b ^^^
        pyNotMask255 ((97 :: au3SecretSlice (strBytes "A|X12345678Y|aHR0")).foldl
          (fun a c => a ^^^ c)
          (97 :: au3SecretSlice (strBytes "A|X12345678Y|aHR0")).length)))) :=
  ⟨by decide, by decide, rfl,
    c4_embedded_key _ _ (by decide) (by decide) (by decide) rfl⟩

/-- Python `list.remove("")` characterised: it removes the first empty element
when one exists and raises otherwise. -/
theorem pyRemoveEmpty_eq (l : List (List Nat)) :
    pyRemoveEmpty l =
      if l.any (fun x => x.isEmpty) then some (l.eraseP (fun x => x.isEmpty)) else none := by
  induction l with
  | nil => rfl
  | cons x xs ih =>
    rw [pyRemoveEmpty]
    by_cases hx : x = []
    · subst hx
      simp [List.eraseP_cons]
    · have hxe : x.isEmpty = false := by
        cases x with
        | nil => exact absurd rfl hx
        | cons a as => rfl
      rw [if_neg hx, ih]
      by_cases h : xs.any (fun x => x.isEmpty) = true
      · rw [if_pos h]
        simp [List.any_cons, hxe, h, List.eraseP_cons]
      · rw [if_neg h]
        simp only [List.any_cons, hxe, Bool.false_or]
        rw [if_neg h]
        rfl

/-- C6 counterexample: the claim's example string, which begins with
`|`, never matches the untrimmed `^https?://` test, so no C2 list is
recorded and the configuration stays empty. -/
theorem c6_c2_cex :
    get_config [strBytes "|http://a.example/gate|http://b.example/gate"] = .ok [] := rfl

/-- C6 (amended): a decoded string without a flag marker is treated as
a C2-list string exactly when it begins with `http://` or `https://`
before any trimming; it is then trimmed of NULs and whitespace and
split on `|`; with more than one part the first empty part (wherever it
occurs) is removed and the rest recorded as `c2_servers`, overwriting
any previous value, and an uncaught `ValueError` is raised when no part
is empty.  The string
`"http://a.example/gate|http://b.example/gate|"` yields the C2 list
`["http://a.example/gate", "http://b.example/gate"]`. -/
theorem c6_c2_branch_amended :
    (∀ (r : PyDict) (s : List Nat),
      (containsSub (strBytes "1=Yes") s || containsSub (strBytes "1=No") s) = false →
      get_config_step r s = spec_c2_branch r s) ∧
    get_config [strBytes "http://a.example/gate|http://b.example/gate|"] =
      .ok [(strBytes "c2_servers",
        .pyStrList [strBytes "http://a.example/gate", strBytes "http://b.example/gate"])] := by
  refine ⟨?_, rfl⟩
  intro r s hflag
  simp only [get_config_step, spec_c2_branch]
  rw [if_neg (by rw [hflag]; exact Bool.false_ne_true)]
  by_cases hhttp : (leadsWith (strBytes "http://") s || leadsWith (strBytes "https://") s) = true
  · rw [if_pos hhttp, if_pos hhttp]
    by_cases hlen : 1 < (pySplitL 124 (pyStrip s)).length
    · rw [if_pos hlen, if_pos hlen, pyRemoveEmpty_eq]
      by_cases hany : (pySplitL 124 (pyStrip s)).any (fun x => x.isEmpty) = true
      · rw [if_pos hany, if_pos hany]
      · rw [if_neg hany, if_neg hany]
    · rw [if_neg hlen, if_neg hlen]
  · rw [if_neg hhttp, if_neg hhttp]

/-- Witness for `c6_c2_branch_amended`: a marker-free string starting
with `http://`. -/
theorem c6_c2_branch_amended_witness :
    (containsSub (strBytes "1=Yes") (strBytes "http://a|") ||
      containsSub (strBytes "1=No") (strBytes "http://a|")) = false ∧
    get_config_step [] (strBytes "http://a|") = spec_c2_branch [] (strBytes "http://a|") :=
  ⟨by decide, c6_c2_branch_amended.1 [] _ (by decide)⟩

/-- C7: a decoded string containing `1=Yes` or `1=No` is parsed by
folding all `digits=word` tokens into the result dict, mapping each key
through the 17-entry table (indices 0-13 and 15-17, index 14 absent,
unknown keys named `flag_<key>`) and converting values (`No` to false,
`Yes` to true, all-digit strings to integers, others kept as strings,
later tokens overwriting earlier ones); the example string
`"0=4444|1=Yes|16=60"` yields `c2_port = 4444`,
`startup_persistence = true` and `c2_ping_interval = 60`. -/
theorem c7_flag_tokens :
    (∀ (r : PyDict) (s : List Nat),
      (containsSub (strBytes "1=Yes") s || containsSub (strBytes "1=No") s) = true →
      get_config_step r s = .ok ((findTokens s).foldl
        (fun acc t => dictSet acc (flagFieldName t.1) (parse_config_value t.2)) r)) ∧
    get_config [strBytes "0=4444|1=Yes|16=60"] =
      .ok [(strBytes "c2_port", .pyInt 4444),
        (strBytes "startup_persistence", .pyBool true),
        (strBytes "c2_ping_interval", .pyInt 60)] ∧
    flagFieldName (strBytes "0") = strBytes "c2_port" ∧
    flagFieldName (strBytes "14") = strBytes "flag_14" ∧
    flagFieldName (strBytes "17") = strBytes "anti_debug" ∧
    config_flag_mapping.length = 17 ∧
    parse_config_value (strBytes "No") = .pyBool false ∧
    parse_config_value (strBytes "Yes") = .pyBool true ∧
    (∀ v : List Nat, v ≠ [] → v.all isDigitB = true →
      parse_config_value v = .pyInt (digitsToNat v)) := by
  refine ⟨?_, rfl, rfl, rfl, rfl, rfl, rfl, rfl, ?_⟩
  · intro r s hflag
    rw [get_config_step, if_pos hflag]
  · intro v hne hall
    have hno : v ≠ strBytes "No" := by
      rintro rfl
      exact absurd hall (by decide)
    have hyes : v ≠ strBytes "Yes" := by
      rintro rfl
      exact absurd hall (by decide)
    rw [parse_config_value, if_neg hno, if_neg hyes, if_pos ⟨hne, hall⟩]

/-- Witness for `c7_flag_tokens`: the marker string itself. -/
theorem c7_flag_tokens_witness :
    (containsSub (strBytes "1=Yes") (strBytes "1=Yes") ||
      containsSub (strBytes "1=No") (strBytes "1=Yes")) = true ∧
    get_config_step [] (strBytes "1=Yes") = .ok ((findTokens (strBytes "1=Yes")).foldl
      (fun acc t => dictSet acc (flagFieldName t.1) (parse_config_value t.2)) []) :=
  ⟨by decide, c7_flag_tokens.1 [] _ (by decide)⟩

/-- C10: a decoded string that begins with `http://` and splits on `|`
into more than one element, none of which is empty, makes `get_config`
raise an uncaught `ValueError` from `list.remove("")` instead of
returning a configuration record. -/
theorem c10_remove_crash :
    get_config [strBytes "http://a.example|http://b.example"] =
      .error .valueErrorRemoveMissing := rfl

/-- C9 counterexample: a payload in which an alphabet candidate and a
non-empty decoded string list are recovered, yet the run does not exit
zero: the decoded C2-like string `http://a|http://b` has no empty split
element, so configuration parsing raises an uncaught `ValueError`. -/
theorem c9_exit_cex :
    perform_string_extraction crashPayload = some [strBytes "http://a|http://b"] ∧
    analyzeTail (some crashPayload) false = .crashed .valueErrorRemoveMissing :=
  ⟨rfl, rfl⟩

/-- C9 (amended): the analysis tail exits nonzero exactly when no
payload was located, when string extraction yields nothing (no alphabet
candidate or an empty decoded list), or when configuration parsing
raises an uncaught exception; and a located payload with a non-empty
string list whose parse yields an empty configuration is a success that
prints the empty configuration object and exits zero. -/
theorem c9_exit_amended (p : Option (List Nat)) (includeStrings : Bool) :
    (isNonzeroExit (analyzeTail p includeStrings) = true ↔
      (p = none ∨
        (∃ c, p = some c ∧ perform_string_extraction c = none) ∨
        (∃ c, p = some c ∧ perform_string_extraction c = some []) ∨
        (∃ c strs e, p = some c ∧ perform_string_extraction c = some strs ∧
          get_config strs = .error e))) ∧
    (∀ c strs, p = some c → perform_string_extraction c = some strs → strs ≠ [] →
      get_config strs = .ok [] →
      analyzeTail p includeStrings = .success (if includeStrings
        then dictSet [] (strBytes "strings") (.pyStrList strs) else [])) := by
  constructor
  · cases p with
    | none =>
      simp only [analyzeTail, isNonzeroExit]
      constructor
      · intro _
        exact Or.inl trivial
      · intro _
        trivial
    | some c =>
      cases hext : perform_string_extraction c with
      | none =>
        simp only [analyzeTail, hext, isNonzeroExit]
        constructor
        · intro _
          exact Or.inr (Or.inl ⟨c, rfl, hext⟩)
        · intro _
          trivial
      | some strs =>
        by_cases hnil : strs = []
        · subst hnil
          simp only [analyzeTail, hext, isNonzeroExit, if_pos rfl]
          constructor
          · intro _
            exact Or.inr (Or.inr (Or.inl ⟨c, rfl, hext⟩))
          · intro _
            trivial
        · simp only [analyzeTail, hext, if_neg hnil]
          cases hcfg : get_config strs with
          | ok config =>
            simp only [isNonzeroExit]
            constructor
            · intro h
              cases h
            · intro h
              rcases h with h | ⟨c2, hc2, hn⟩ | ⟨c2, hc2, hs⟩ | ⟨c2, strs2, e, hc2, hs, he⟩
              · cases h
              · injection hc2 with hc2
                subst hc2
                rw [hext] at hn
                cases hn
              · injection hc2 with hc2
                subst hc2
                rw [hext] at hs
                injection hs with hs
                exact absurd hs hnil
              · injection hc2 with hc2
                subst hc2
                rw [hext] at hs
                injection hs with hs
                subst hs
                rw [hcfg] at he
                cases he
          | error e =>
            simp only [isNonzeroExit]
            constructor
            · intro _
              exact Or.inr (Or.inr (Or.inr ⟨c, strs, e, rfl, hext, hcfg⟩))
            · intro _
              trivial
  · intro c strs hp hext hnil hcfg
    subst hp
    simp only [analyzeTail, hext, if_neg hnil, hcfg]

/-- Witness for `c9_exit_amended`: a missing payload exits nonzero. -/
theorem c9_exit_amended_witness :
    isNonzeroExit (analyzeTail none false) = true :=
  (c9_exit_amended none false).1.mpr (Or.inl rfl)
